import Mathlib

/-!
Verification of the `platform.rs` module of `reindeer`: Cargo-style
`cfg(...)` platform predicate expressions, their evaluation against a
platform's attribute configuration, and the lookup helper filtering a
named-platform table by a predicate.

The data model and the evaluator are translated directly from
`src/platform.rs`.  The `cfg` expression parser lives in a module of the
repository that is not part of the provided sources, so it is modelled
from the specification's grammar (§4.1) where noted.
-/

/-- A single `PlatformConfig` represents a single platform: a map from
platform attribute key to the set of values true for this platform
(`HashMap<String, HashSet<String>>` modelled as an association list). -/
structure PlatformConfig where
  attrs : List (String × List String)
deriving DecidableEq

/-- `HashMap::get`: first entry whose key matches. -/
def PlatformConfig.get (c : PlatformConfig) (key : String) : Option (List String) :=
  (c.attrs.find? (fun kv => kv.1 == key)).map (fun kv => kv.2)

/-- `HashMap::contains_key`. -/
def PlatformConfig.contains_key (c : PlatformConfig) (key : String) : Bool :=
  (c.attrs.find? (fun kv => kv.1 == key)).isSome

/-- The sentinel platform name whose deps apply unconditionally. -/
def DEFAULT_PLATFORM : String := "DEFAULT"

/-- A name of a platform, as used in `Config`. -/
structure PlatformName where
  name : String
deriving DecidableEq

def PlatformName.is_default (n : PlatformName) : Bool :=
  n.name == DEFAULT_PLATFORM

/-- A Cargo-style platform predicate expression such as
`cfg(target_arch = "z80")`, unparsed. -/
structure PlatformExpr where
  expr : String
deriving DecidableEq

/-- Platform predicate which can be matched against a `PlatformConfig`.
Constructor names follow the Rust enum variants. -/
inductive PlatformPredicate where
  | Any (preds : List PlatformPredicate)
  | All (preds : List PlatformPredicate)
  | Not (pred : PlatformPredicate)
  | Value (key : String) (value : String)
  | Bool (key : String)
  | Unix
  | Windows

/-- Semantics of the `Bool { key }` leaf: `config.0.contains_key(key)`. -/
def boolEval (key : String) (config : PlatformConfig) : Bool :=
  config.contains_key key

/-- Semantics of the `Value { key, value }` leaf:
`config.0.get(key).map_or(true, |set| set.contains(value))`. -/
def valueEval (key value : String) (config : PlatformConfig) : Bool :=
  match config.get key with
  | none => true
  | some set => set.contains value

/-- `PlatformPredicate::target_family_bool`:
`Bool{key: family}.eval(config) || Value{key: "target_family", value: family}.eval(config)`. -/
def target_family_bool (family : String) (config : PlatformConfig) : Bool :=
  boolEval family config || valueEval "target_family" family config

mutual

/-- `PlatformPredicate::eval`, translated clause by clause from the source. -/
def PlatformPredicate.eval : PlatformPredicate → PlatformConfig → Bool
  | .Bool key, config => boolEval key config
  | .Value key value, config => valueEval key value config
  | .Not pred, config => !(pred.eval config)
  | .Any preds, config => evalAny preds config
  | .All preds, config => evalAll preds config
  | .Unix, config => target_family_bool "unix" config
  | .Windows, config => target_family_bool "windows" config

/-- `preds.iter().any(|pred| pred.eval(config))`. -/
def evalAny : List PlatformPredicate → PlatformConfig → Bool
  | [], _ => false
  | p :: ps, config => p.eval config || evalAny ps config

/-- `preds.iter().all(|pred| pred.eval(config))`. -/
def evalAll : List PlatformPredicate → PlatformConfig → Bool
  | [], _ => true
  | p :: ps, config => p.eval config && evalAll ps config

end

theorem evalAny_eq_any (l : List PlatformPredicate) (c : PlatformConfig) :
    evalAny l c = l.any (fun p => p.eval c) := by
  induction l with
  | nil => rfl
  | cons p ps ih => simp [evalAny, ih]

theorem evalAll_eq_all (l : List PlatformPredicate) (c : PlatformConfig) :
    evalAll l c = l.all (fun p => p.eval c) := by
  induction l with
  | nil => rfl
  | cons p ps ih => simp [evalAll, ih]

example : (PlatformPredicate.Value "target_os" "linux").eval
    ⟨[("target_os", ["linux", "android"])]⟩ = true := by rfl

example : (PlatformPredicate.Value "target_os" "linux").eval
    ⟨[("target_os", ["windows"])]⟩ = false := by rfl

example : (PlatformPredicate.Value "target_os" "linux").eval ⟨[]⟩ = true := by rfl

example : PlatformPredicate.Windows.eval ⟨[]⟩ = true := by rfl

/-! ## The `cfg` expression parser

`PlatformPredicate::parse` delegates to `cfg::parse` from a module of the
repository whose source is not provided; the grammar below is modelled from
the specification (§4.1):

```
expr       := "cfg(" predicate ")"
predicate  := any_expr | all_expr | not_expr | value_pred | bool_pred
any_expr   := "any(" predicate_list ")"
all_expr   := "all(" predicate_list ")"
not_expr   := "not(" predicate ")"
predicate_list := [ predicate ("," predicate)* ]
value_pred := ident "=" quoted_string
bool_pred  := ident
```

Whitespace is insensitive between tokens; `unix`/`windows` identifiers used
as `bool_pred` become the dedicated sugar leaves.  Running out of input at a
required token is `Incomplete`; any other grammar violation is an error with
a diagnostic message whose text is not contractual. -/

/-- Errors of the modelled nom-style parser: `Incomplete` mirrors
`nom::Err::Incomplete`, `Error` mirrors `nom::Err::Error`/`Failure`. -/
inductive CfgErr where
  | Incomplete
  | Error (msg : String)
deriving DecidableEq

def isWsChar (c : Char) : Bool :=
  c == ' ' || c == '\t' || c == '\n' || c == '\r'

/-- Skip leading whitespace between tokens. -/
def skipWs : List Char → List Char
  | [] => []
  | c :: cs => if isWsChar c then skipWs cs else c :: cs

/-- Identifier characters: letters, digits, underscore. -/
def isIdentChar (c : Char) : Bool :=
  c.isAlphanum || c == '_'

/-- First identifier character: non-digit. -/
def isIdentStart (c : Char) : Bool :=
  c.isAlpha || c == '_'

/-- Modelled from the spec: `ident := identifier characters (letters,
digits, underscore), first char non-digit`.  Input is expected to have its
leading whitespace already skipped. -/
def parseIdent : List Char → Except CfgErr (String × List Char)
  | [] => .error .Incomplete
  | c :: cs =>
    if isIdentStart c then
      .ok (String.mk (c :: cs.takeWhile isIdentChar), cs.dropWhile isIdentChar)
    else
      .error (.Error ("expected identifier at: " ++ String.mk (c :: cs)))

/-- Modelled from the spec: `quoted_string := double-quote, zero or more
non-quote characters, double-quote`.  An unterminated quote is `Incomplete`. -/
def parseQuoted : List Char → Except CfgErr (String × List Char)
  | [] => .error .Incomplete
  | c :: cs =>
    if c == '"' then
      match cs.dropWhile (fun d => d != '"') with
      | _ :: rest => .ok (String.mk (cs.takeWhile (fun d => d != '"')), rest)
      | [] => .error .Incomplete
    else
      .error (.Error ("expected quoted string at: " ++ String.mk (c :: cs)))

/-- Expect a closing parenthesis, after optional whitespace. -/
def expectClose (input : List Char) : Except CfgErr (List Char) :=
  match skipWs input with
  | ')' :: rest => .ok rest
  | [] => .error .Incomplete
  | c :: _ => .error (.Error ("expected closing parenthesis at: " ++ String.mk [c]))

mutual

/-- Modelled from the spec: `predicate := any_expr | all_expr | not_expr |
value_pred | bool_pred`, with the grammar-level rewrite of the `unix` and
`windows` identifiers to the sugar leaves.  `fuel` bounds the recursion
depth; the top-level entry point supplies more fuel than any parse can
consume (one unit per predicate or list node, each of which consumes at
least one input character). -/
def parsePred : Nat → List Char → Except CfgErr (PlatformPredicate × List Char)
  | 0, _ => .error (.Error "recursion limit exceeded")
  | fuel + 1, input =>
    parseIdent (skipWs input) >>= fun (id, restId) =>
    let rest1 := skipWs restId
    if (id = "any" ∨ id = "all" ∨ id = "not") ∧ rest1.head? = some '(' then
      if id = "not" then
        parsePred fuel rest1.tail >>= fun (p, rest2) =>
        expectClose rest2 >>= fun rest3 =>
        .ok (.Not p, rest3)
      else
        parseList fuel rest1.tail >>= fun (ps, rest2) =>
        expectClose rest2 >>= fun rest3 =>
        .ok (if id = "any" then .Any ps else .All ps, rest3)
    else if rest1.head? = some '=' then
      parseQuoted (skipWs rest1.tail) >>= fun (v, rest2) =>
      .ok (.Value id v, rest2)
    else
      .ok (if id = "unix" then .Unix
           else if id = "windows" then .Windows
           else .Bool id, restId)

/-- Modelled from the spec:
`predicate_list := [ predicate ("," predicate)* ]` (possibly empty). -/
def parseList : Nat → List Char → Except CfgErr (List PlatformPredicate × List Char)
  | 0, _ => .error (.Error "recursion limit exceeded")
  | fuel + 1, input =>
    let input1 := skipWs input
    if input1 = [] ∨ input1.head? = some ')' then
      .ok ([], input1)
    else
      parsePred fuel input1 >>= fun (p, rest) =>
      parseListTail fuel rest >>= fun (ps, rest2) =>
      .ok (p :: ps, rest2)

/-- Modelled from the spec: the `("," predicate)*` continuation of a
predicate list. -/
def parseListTail : Nat → List Char → Except CfgErr (List PlatformPredicate × List Char)
  | 0, _ => .error (.Error "recursion limit exceeded")
  | fuel + 1, input =>
    let input1 := skipWs input
    if input1.head? = some ',' then
      parsePred fuel input1.tail >>= fun (p, rest2) =>
      parseListTail fuel rest2 >>= fun (ps, rest3) =>
      .ok (p :: ps, rest3)
    else
      .ok ([], input)

end

/-- Modelled from the spec: the mandatory `"cfg("` opener of
`expr := "cfg(" predicate ")"`.  Input that ends in the middle of the
required tokens is `Incomplete`. -/
def expectCfgOpen (input : List Char) : Except CfgErr (List Char) :=
  match skipWs input with
  | 'c' :: 'f' :: 'g' :: rest =>
    match skipWs rest with
    | '(' :: r => .ok r
    | [] => .error .Incomplete
    | c :: _ => .error (.Error ("expected opening parenthesis at: " ++ String.mk [c]))
  | [] => .error .Incomplete
  | ['c'] => .error .Incomplete
  | ['c', 'f'] => .error .Incomplete
  | c :: _ => .error (.Error ("expected cfg at: " ++ String.mk [c]))

/-- Modelled from the spec: `cfg::parse`, parsing
`expr := "cfg(" predicate ")"` and returning, nom-style, the unconsumed
remainder of the input together with the parsed predicate. -/
def cfgParse (input : String) : Except CfgErr (String × PlatformPredicate) :=
  expectCfgOpen input.toList >>= fun body =>
  parsePred (input.toList.length + 1) body >>= fun (p, rest) =>
  expectClose rest >>= fun rest2 =>
  .ok (String.mk rest2, p)

/-- Parse-error taxonomy of `PlatformPredicate::parse`. -/
inductive PredicateParseError where
  | TrailingJunk (junk : String)
  | Incomplete
  | ParseError (msg : String)
deriving DecidableEq

/-- `PlatformPredicate::parse`: runs `cfg::parse` on the raw expression;
an empty remainder is success, a non-empty remainder is `TrailingJunk`,
and the nom error kinds map to `Incomplete` / `ParseError`. -/
def PlatformPredicate.parse (input : PlatformExpr) :
    Except PredicateParseError PlatformPredicate :=
  match cfgParse input.expr with
  | .ok (rest, pred) =>
    if rest = "" then .ok pred else .error (.TrailingJunk rest)
  | .error .Incomplete => .error .Incomplete
  | .error (.Error msg) => .error (.ParseError msg)

/-- The named-platform table read by the lookup helper: `Config.platform`
from the external configuration module, modelled as an association list in
table iteration order. -/
structure Config where
  platform : List (PlatformName × PlatformConfig)

/-- `platform_names_for_expr`: parse the expression once, propagating the
parse error, then keep exactly the names of the platforms whose config
satisfies the predicate. -/
def platform_names_for_expr (config : Config) (expr : PlatformExpr) :
    Except PredicateParseError (List PlatformName) :=
  match PlatformPredicate.parse expr with
  | .error e => .error e
  | .ok pred =>
    .ok ((config.platform.filter (fun nc => pred.eval nc.2)).map (fun nc => nc.1))

example : PlatformPredicate.parse ⟨"cfg(unix)"⟩ = .ok .Unix := by rfl

example : PlatformPredicate.parse ⟨"cfg(not(windows))"⟩ = .ok (.Not .Windows) := by rfl

example : PlatformPredicate.parse ⟨"cfg(any())"⟩ = .ok (.Any []) := by rfl

example : PlatformPredicate.parse ⟨"cfg(all(unix, target_arch = \"x86_64\"))"⟩ =
    .ok (.All [.Unix, .Value "target_arch" "x86_64"]) := by rfl

example : PlatformPredicate.parse ⟨"cfg(unix) trailing"⟩ =
    .error (.TrailingJunk " trailing") := by rfl

example : PlatformPredicate.parse ⟨"cfg(unix"⟩ = .error .Incomplete := by rfl

/-! ## The canonical printer (`Display for PlatformPredicate`) -/

mutual

/-- `Display for PlatformPredicate`, translated clause by clause:
`Bool` prints its key, `Value` prints `key = "value"`, `Any`/`All` print
`any(...)`/`all(...)` with `", "`-joined children, `Not` prints `not(...)`,
and the sugar leaves print `unix`/`windows` (not expanded). -/
def PlatformPredicate.print : PlatformPredicate → String
  | .Bool key => key
  | .Value key value => key ++ " = \"" ++ value ++ "\""
  | .Any preds => "any(" ++ printJoin preds ++ ")"
  | .All preds => "all(" ++ printJoin preds ++ ")"
  | .Not pred => "not(" ++ pred.print ++ ")"
  | .Unix => "unix"
  | .Windows => "windows"

/-- `itertools::join(preds.iter(), ", ")`. -/
def printJoin : List PlatformPredicate → String
  | [] => ""
  | p :: ps => p.print ++ printJoinTail ps

/-- The `", "`-separated continuation of a joined list. -/
def printJoinTail : List PlatformPredicate → String
  | [] => ""
  | p :: ps => ", " ++ p.print ++ printJoinTail ps

end

/-- A valid identifier of the grammar: nonempty, first char non-digit,
all chars letters, digits or underscore. -/
def validIdent (s : String) : Bool :=
  match s.toList with
  | [] => false
  | c :: cs => isIdentStart c && (c :: cs).all isIdentChar

mutual

/-- The predicates producible by the parser: keys are valid identifiers,
quoted values contain no double quote, and a `Bool` leaf never carries the
reserved identifiers `unix`/`windows` (those become the sugar leaves). -/
def wfPred : PlatformPredicate → Bool
  | .Bool key => validIdent key && key != "unix" && key != "windows"
  | .Value key value => validIdent key && value.toList.all (fun c => c != '"')
  | .Not p => wfPred p
  | .Any ps => wfList ps
  | .All ps => wfList ps
  | .Unix => true
  | .Windows => true

def wfList : List PlatformPredicate → Bool
  | [] => true
  | p :: ps => wfPred p && wfList ps

end

/-- Rests a printed predicate may be followed by inside a larger printed
expression: nothing, a closing parenthesis, or a list separator. -/
def okRest : List Char → Bool
  | [] => true
  | c :: _ => c == ')' || c == ','

mutual

/-- Fuel bound for re-parsing a printed predicate. -/
def pBound : PlatformPredicate → Nat
  | .Any ps => 1 + lBound ps
  | .All ps => 1 + lBound ps
  | .Not p => 1 + pBound p
  | .Value _ _ => 1
  | .Bool _ => 1
  | .Unix => 1
  | .Windows => 1

def lBound : List PlatformPredicate → Nat
  | [] => 1
  | p :: ps => 1 + pBound p + tBound ps

def tBound : List PlatformPredicate → Nat
  | [] => 1
  | p :: ps => 1 + pBound p + tBound ps

end

/-! ## Generic helper lemmas -/

theorem ok_bind {ε α β : Type} (a : α) (f : α → Except ε β) :
    (Except.ok a >>= f) = f a := rfl

theorem error_bind {ε α β : Type} (e : ε) (f : α → Except ε β) :
    ((Except.error e : Except ε α) >>= f) = Except.error e := rfl

theorem toList_append (a b : String) : (a ++ b).toList = a.toList ++ b.toList :=
  String.data_append a b

theorem mk_toList (s : String) : String.mk s.toList = s := rfl

theorem takeWhile_append_all {α : Type} (p : α → Bool) (l₁ l₂ : List α)
    (h₁ : l₁.all p = true) (h₂ : ∀ c, l₂.head? = some c → p c = false) :
    (l₁ ++ l₂).takeWhile p = l₁ ∧ (l₁ ++ l₂).dropWhile p = l₂ := by
  induction l₁ with
  | nil =>
    cases l₂ with
    | nil => simp
    | cons c cs =>
      have hc := h₂ c rfl
      simp [List.takeWhile, List.dropWhile, hc]
  | cons a l ih =>
    simp only [List.all_cons, Bool.and_eq_true] at h₁
    obtain ⟨ha, hl⟩ := h₁
    obtain ⟨iht, ihd⟩ := ih hl
    simp [List.takeWhile, List.dropWhile, ha, iht, ihd]

theorem all_takeWhile {α : Type} (p : α → Bool) (l : List α) :
    (l.takeWhile p).all p = true := by
  induction l with
  | nil => simp
  | cons a l ih =>
    by_cases hp : p a = true
    · simp [List.takeWhile, hp, ih]
    · simp only [Bool.not_eq_true] at hp
      simp [List.takeWhile, hp]

/-! ## Character-class facts -/

theorem identStart_not_ws {c : Char} (h : isIdentStart c = true) : isWsChar c = false := by
  cases hw : isWsChar c
  · rfl
  · exfalso
    simp only [isWsChar, Bool.or_eq_true, beq_iff_eq] at hw
    rcases hw with ((h1 | h1) | h1) | h1 <;> subst h1 <;> exact absurd h (by decide)

theorem identStart_identChar {c : Char} (h : isIdentStart c = true) : isIdentChar c = true := by
  simp only [isIdentStart, Bool.or_eq_true] at h
  simp only [isIdentChar, Char.isAlphanum, Bool.or_eq_true]
  rcases h with h | h
  · exact Or.inl (Or.inl h)
  · exact Or.inr h

theorem identStart_ne_rparen {c : Char} (h : isIdentStart c = true) : c ≠ ')' := by
  intro hc; rw [hc] at h; exact absurd h (by decide)

/-! ## `skipWs` facts -/

theorem skipWs_cons_not_ws {c : Char} (cs : List Char) (h : isWsChar c = false) :
    skipWs (c :: cs) = c :: cs := by
  simp [skipWs, h]

theorem skipWs_cons_ws {c : Char} (cs : List Char) (h : isWsChar c = true) :
    skipWs (c :: cs) = skipWs cs := by
  simp [skipWs, h]

theorem okRest_cases {rest : List Char} (h : okRest rest = true) :
    rest = [] ∨ ∃ cs, rest = ')' :: cs ∨ rest = ',' :: cs := by
  cases rest with
  | nil => exact Or.inl rfl
  | cons c cs =>
    simp only [okRest, Bool.or_eq_true, beq_iff_eq] at h
    rcases h with h | h <;> subst h
    · exact Or.inr ⟨cs, Or.inl rfl⟩
    · exact Or.inr ⟨cs, Or.inr rfl⟩

theorem skipWs_okRest {rest : List Char} (h : okRest rest = true) : skipWs rest = rest := by
  rcases okRest_cases h with h1 | ⟨cs, h1 | h1⟩ <;> subst h1
  · rfl
  · exact skipWs_cons_not_ws cs (by decide)
  · exact skipWs_cons_not_ws cs (by decide)

theorem okRest_head_identChar {rest : List Char} (h : okRest rest = true) :
    ∀ c, rest.head? = some c → isIdentChar c = false := by
  intro c hc
  rcases okRest_cases h with h1 | ⟨cs, h1 | h1⟩ <;> subst h1 <;> simp at hc
  · rw [← hc]; decide
  · rw [← hc]; decide

theorem okRest_head_ne {rest : List Char} (h : okRest rest = true) (d : Char)
    (hd : d ≠ ')') (hd2 : d ≠ ',') : rest.head? ≠ some d := by
  intro hc
  rcases okRest_cases h with h1 | ⟨cs, h1 | h1⟩ <;> subst h1 <;> simp at hc
  · exact hd hc.symm
  · exact hd2 hc.symm

/-! ## `parseIdent` / `parseQuoted` facts -/

theorem parseIdent_print {key : String} {rest : List Char}
    (hk : validIdent key = true)
    (hrest : ∀ c, rest.head? = some c → isIdentChar c = false) :
    parseIdent (key.toList ++ rest) = .ok (key, rest) := by
  unfold validIdent at hk
  cases hl : key.toList with
  | nil => rw [hl] at hk; simp at hk
  | cons c cs =>
    rw [hl] at hk
    simp only [Bool.and_eq_true, List.all_cons] at hk
    obtain ⟨hstart, hc, hcs⟩ := hk
    obtain ⟨htake, hdrop⟩ := takeWhile_append_all isIdentChar cs rest hcs hrest
    simp only [List.cons_append, parseIdent, hstart, if_true, htake, hdrop]
    have : String.mk (c :: cs) = key := by rw [← hl]; rfl
    rw [this]

theorem parseIdent_valid {input : List Char} {id : String} {rest : List Char}
    (h : parseIdent input = .ok (id, rest)) : validIdent id = true := by
  cases input with
  | nil => simp [parseIdent] at h
  | cons c cs =>
    by_cases hs : isIdentStart c = true
    · simp only [parseIdent, hs, if_true, Except.ok.injEq, Prod.mk.injEq] at h
      obtain ⟨hid, _⟩ := h
      rw [← hid]
      simp only [validIdent, String.toList]
      simp only [Bool.and_eq_true, List.all_cons]
      exact ⟨hs, identStart_identChar hs, all_takeWhile isIdentChar cs⟩
    · simp only [Bool.not_eq_true] at hs
      simp [parseIdent, hs] at h

theorem parseQuoted_print {v : String} {rest : List Char}
    (hv : v.toList.all (fun c => c != '"') = true) :
    parseQuoted ('"' :: (v.toList ++ ('"' :: rest))) = .ok (v, rest) := by
  obtain ⟨htake, hdrop⟩ := takeWhile_append_all (fun c => c != '"') v.toList ('"' :: rest) hv
    (by intro c hc; simp at hc; rw [← hc]; decide)
  simp only [parseQuoted, if_true, hdrop, htake, mk_toList]
  rfl

theorem parseQuoted_noquote {input : List Char} {v : String} {rest : List Char}
    (h : parseQuoted input = .ok (v, rest)) : v.toList.all (fun c => c != '"') = true := by
  cases input with
  | nil => simp [parseQuoted] at h
  | cons c cs =>
    by_cases hq : (c == '"') = true
    · simp only [parseQuoted, hq, if_true] at h
      cases hd : cs.dropWhile (fun d => d != '"') with
      | nil => rw [hd] at h; simp at h
      | cons d rest' =>
        rw [hd] at h
        simp only [Except.ok.injEq, Prod.mk.injEq] at h
        obtain ⟨hv, _⟩ := h
        rw [← hv]
        simp only [String.toList]
        exact all_takeWhile _ cs
    · simp only [Bool.not_eq_true] at hq
      simp [parseQuoted, hq] at h

/-! ## `toList` equations for the printer -/

theorem print_value_toList (k v : String) (rest : List Char) :
    (PlatformPredicate.print (.Value k v)).toList ++ rest =
      k.toList ++ (' ' :: '=' :: ' ' :: '"' :: (v.toList ++ ('"' :: rest))) := by
  show ((k ++ " = \"" ++ v ++ "\"")).toList ++ rest = _
  simp only [toList_append, List.append_assoc]
  rfl

theorem print_not_toList (p : PlatformPredicate) (rest : List Char) :
    (PlatformPredicate.print (.Not p)).toList ++ rest =
      'n' :: 'o' :: 't' :: '(' :: ((PlatformPredicate.print p).toList ++ (')' :: rest)) := by
  show ("not(" ++ PlatformPredicate.print p ++ ")").toList ++ rest = _
  simp only [toList_append, List.append_assoc]
  rfl

theorem print_any_toList (ps : List PlatformPredicate) (rest : List Char) :
    (PlatformPredicate.print (.Any ps)).toList ++ rest =
      'a' :: 'n' :: 'y' :: '(' :: ((printJoin ps).toList ++ (')' :: rest)) := by
  show ("any(" ++ printJoin ps ++ ")").toList ++ rest = _
  simp only [toList_append, List.append_assoc]
  rfl

theorem print_all_toList (ps : List PlatformPredicate) (rest : List Char) :
    (PlatformPredicate.print (.All ps)).toList ++ rest =
      'a' :: 'l' :: 'l' :: '(' :: ((printJoin ps).toList ++ (')' :: rest)) := by
  show ("all(" ++ printJoin ps ++ ")").toList ++ rest = _
  simp only [toList_append, List.append_assoc]
  rfl

theorem printJoin_cons_toList (p : PlatformPredicate) (ps : List PlatformPredicate)
    (rest : List Char) :
    (printJoin (p :: ps)).toList ++ rest =
      (PlatformPredicate.print p).toList ++ ((printJoinTail ps).toList ++ rest) := by
  show (PlatformPredicate.print p ++ printJoinTail ps).toList ++ rest = _
  simp only [toList_append, List.append_assoc]

theorem printJoinTail_cons_toList (p : PlatformPredicate) (ps : List PlatformPredicate)
    (rest : List Char) :
    (printJoinTail (p :: ps)).toList ++ rest =
      ',' :: ' ' :: ((PlatformPredicate.print p).toList ++ ((printJoinTail ps).toList ++ rest)) := by
  show (", " ++ PlatformPredicate.print p ++ printJoinTail ps).toList ++ rest = _
  simp only [toList_append, List.append_assoc]
  rfl

/-- Every well-formed predicate prints to a string starting with an
identifier-start character. -/
theorem print_head (p : PlatformPredicate) (h : wfPred p = true) :
    ∃ c cs, (PlatformPredicate.print p).toList = c :: cs ∧ isIdentStart c = true := by
  cases p with
  | Bool key =>
    simp only [wfPred, Bool.and_eq_true] at h
    obtain ⟨⟨hk, _⟩, _⟩ := h
    unfold validIdent at hk
    cases hl : key.toList with
    | nil => rw [hl] at hk; simp at hk
    | cons c cs =>
      rw [hl] at hk
      simp only [Bool.and_eq_true] at hk
      exact ⟨c, cs, hl, hk.1⟩
  | Value key value =>
    simp only [wfPred, Bool.and_eq_true] at h
    obtain ⟨hk, _⟩ := h
    unfold validIdent at hk
    cases hl : key.toList with
    | nil => rw [hl] at hk; simp at hk
    | cons c cs =>
      rw [hl] at hk
      simp only [Bool.and_eq_true] at hk
      refine ⟨c, cs ++ (" = \"" ++ value ++ "\"").toList, ?_, hk.1⟩
      have := print_value_toList key value []
      simp only [List.append_nil] at this
      rw [this, hl]
      simp [toList_append]
  | Not p =>
    have hthis := print_not_toList p []
    simp only [List.append_nil] at hthis
    exact ⟨'n', _, hthis, by decide⟩
  | Any ps =>
    have hthis := print_any_toList ps []
    simp only [List.append_nil] at hthis
    exact ⟨'a', _, hthis, by decide⟩
  | All ps =>
    have hthis := print_all_toList ps []
    simp only [List.append_nil] at hthis
    exact ⟨'a', _, hthis, by decide⟩
  | Unix => exact ⟨'u', ['n', 'i', 'x'], rfl, by decide⟩
  | Windows => exact ⟨'w', ['i', 'n', 'd', 'o', 'w', 's'], rfl, by decide⟩

/-! ## Fuel bounds -/

theorem pBound_pos (p : PlatformPredicate) : 1 ≤ pBound p := by
  cases p <;> simp [pBound]

theorem lBound_pos (ps : List PlatformPredicate) : 1 ≤ lBound ps := by
  cases ps with
  | nil => simp [lBound]
  | cons p ps => simp only [lBound]; omega

theorem tBound_pos (ps : List PlatformPredicate) : 1 ≤ tBound ps := by
  cases ps with
  | nil => simp [tBound]
  | cons p ps => simp only [tBound]; omega

mutual

theorem pBound_le : ∀ p : PlatformPredicate,
    pBound p ≤ (PlatformPredicate.print p).toList.length + 1
  | .Bool key => by simp [pBound]
  | .Value key value => by simp [pBound]
  | .Unix => by simp [pBound]
  | .Windows => by simp [pBound]
  | .Not p => by
    have h := pBound_le p
    have hl := print_not_toList p []
    simp only [List.append_nil] at hl
    simp only [pBound, hl, List.length_cons, List.length_append]
    omega
  | .Any ps => by
    have h := lBound_le ps
    have hl := print_any_toList ps []
    simp only [List.append_nil] at hl
    simp only [pBound, hl, List.length_cons, List.length_append]
    omega
  | .All ps => by
    have h := lBound_le ps
    have hl := print_all_toList ps []
    simp only [List.append_nil] at hl
    simp only [pBound, hl, List.length_cons, List.length_append]
    omega

theorem lBound_le : ∀ ps : List PlatformPredicate,
    lBound ps ≤ (printJoin ps).toList.length + 3
  | [] => by simp [lBound]
  | p :: ps => by
    have h1 := pBound_le p
    have h2 := tBound_le ps
    have hl := printJoin_cons_toList p ps []
    simp only [List.append_nil] at hl
    simp only [lBound, hl, List.length_append]
    omega

theorem tBound_le : ∀ ps : List PlatformPredicate,
    tBound ps ≤ (printJoinTail ps).toList.length + 1
  | [] => by simp [tBound]
  | p :: ps => by
    have h1 := pBound_le p
    have h2 := tBound_le ps
    have hl := printJoinTail_cons_toList p ps []
    simp only [List.append_nil] at hl
    simp only [tBound, hl, List.length_cons, List.length_append]
    omega

end

/-! ## Re-parsing a printed predicate -/

theorem validIdent_head {key : String} (h : validIdent key = true) :
    ∃ c cs, key.toList = c :: cs ∧ isIdentStart c = true := by
  unfold validIdent at h
  cases hl : key.toList with
  | nil => rw [hl] at h; simp at h
  | cons c cs =>
    rw [hl] at h
    simp only [Bool.and_eq_true] at h
    exact ⟨c, cs, rfl, h.1⟩

theorem okRest_printJoinTail (ps : List PlatformPredicate) (rest : List Char) :
    okRest ((printJoinTail ps).toList ++ (')' :: rest)) = true := by
  cases ps with
  | nil => rfl
  | cons p ps => rw [printJoinTail_cons_toList]; rfl

theorem parsePred_ws_cons {c : Char} (fuel : Nat) (input : List Char)
    (h : isWsChar c = true) :
    parsePred fuel (c :: input) = parsePred fuel input := by
  cases fuel with
  | zero => rfl
  | succ fuel => simp only [parsePred, skipWs_cons_ws input h]

theorem expectClose_paren (rest : List Char) : expectClose (')' :: rest) = .ok rest := rfl

theorem print_parse : ∀ fuel : Nat,
    (∀ p rest, wfPred p = true → okRest rest = true → pBound p ≤ fuel →
      parsePred fuel ((PlatformPredicate.print p).toList ++ rest) = .ok (p, rest)) ∧
    (∀ ps rest, wfList ps = true → lBound ps ≤ fuel →
      parseList fuel ((printJoin ps).toList ++ (')' :: rest)) = .ok (ps, ')' :: rest)) ∧
    (∀ ps rest, wfList ps = true → tBound ps ≤ fuel →
      parseListTail fuel ((printJoinTail ps).toList ++ (')' :: rest)) = .ok (ps, ')' :: rest)) := by
  intro fuel
  induction fuel with
  | zero =>
    refine ⟨?_, ?_, ?_⟩
    · intro p rest _ _ hb; have := pBound_pos p; omega
    · intro ps rest _ hb; have := lBound_pos ps; omega
    · intro ps rest _ hb; have := tBound_pos ps; omega
  | succ fuel ih =>
    obtain ⟨ihP, ihL, ihT⟩ := ih
    refine ⟨?_, ?_, ?_⟩
    · intro p rest hwf hrest hb
      cases p with
      | Bool key =>
        have hwf' := hwf
        simp only [wfPred, Bool.and_eq_true, bne_iff_ne, ne_eq] at hwf'
        obtain ⟨⟨hval, hnu⟩, hnw⟩ := hwf'
        have hprint : (PlatformPredicate.print (.Bool key)) = key := by
          simp [PlatformPredicate.print]
        rw [hprint]
        obtain ⟨c, cs, hl, hs⟩ := validIdent_head hval
        have hskip : skipWs (key.toList ++ rest) = key.toList ++ rest := by
          rw [hl, List.cons_append]
          exact skipWs_cons_not_ws _ (identStart_not_ws hs)
        have hid : parseIdent (key.toList ++ rest) = .ok (key, rest) :=
          parseIdent_print hval (okRest_head_identChar hrest)
        simp only [parsePred, hskip, hid, ok_bind]
        rw [skipWs_okRest hrest]
        rw [if_neg (fun hand => okRest_head_ne hrest '(' (by decide) (by decide) hand.2)]
        rw [if_neg (okRest_head_ne hrest '=' (by decide) (by decide))]
        rw [if_neg hnu, if_neg hnw]
      | Value key value =>
        have hwf' := hwf
        simp only [wfPred, Bool.and_eq_true] at hwf'
        obtain ⟨hval, hq⟩ := hwf'
        rw [print_value_toList]
        obtain ⟨c, cs, hl, hs⟩ := validIdent_head hval
        have hskip : skipWs (key.toList ++ (' ' :: '=' :: ' ' :: '"' :: (value.toList ++ ('"' :: rest)))) =
            key.toList ++ (' ' :: '=' :: ' ' :: '"' :: (value.toList ++ ('"' :: rest))) := by
          rw [hl, List.cons_append]
          exact skipWs_cons_not_ws _ (identStart_not_ws hs)
        have hid : parseIdent (key.toList ++ (' ' :: '=' :: ' ' :: '"' :: (value.toList ++ ('"' :: rest)))) =
            .ok (key, ' ' :: '=' :: ' ' :: '"' :: (value.toList ++ ('"' :: rest))) :=
          parseIdent_print hval (by intro d hd; simp at hd; rw [← hd]; decide)
        simp only [parsePred, hskip, hid, ok_bind]
        have hsk2 : skipWs (' ' :: '=' :: ' ' :: '"' :: (value.toList ++ ('"' :: rest))) =
            '=' :: ' ' :: '"' :: (value.toList ++ ('"' :: rest)) := by
          rw [skipWs_cons_ws _ (by decide)]
          exact skipWs_cons_not_ws _ (by decide)
        rw [hsk2]
        rw [if_neg (fun hand => by simpa using hand.2)]
        have hcondv : ('=' :: ' ' :: '"' :: (value.toList ++ ('"' :: rest))).head? = some '=' := rfl
        rw [if_pos hcondv]
        have hsk3 : skipWs (' ' :: '"' :: (value.toList ++ ('"' :: rest))) =
            '"' :: (value.toList ++ ('"' :: rest)) := by
          rw [skipWs_cons_ws _ (by decide)]
          exact skipWs_cons_not_ws _ (by decide)
        simp only [List.tail_cons, hsk3]
        rw [parseQuoted_print hq]
        simp [ok_bind]
      | Unix =>
        have hid : parseIdent ('u' :: 'n' :: 'i' :: 'x' :: rest) = .ok ("unix", rest) :=
          @parseIdent_print "unix" rest (by decide) (okRest_head_identChar hrest)
        have hskip : skipWs ('u' :: 'n' :: 'i' :: 'x' :: rest) = 'u' :: 'n' :: 'i' :: 'x' :: rest :=
          skipWs_cons_not_ws _ (by decide)
        show parsePred (fuel + 1) ('u' :: 'n' :: 'i' :: 'x' :: rest) = _
        simp only [parsePred, hskip, hid, ok_bind]
        rw [skipWs_okRest hrest]
        rw [if_neg (fun hand => okRest_head_ne hrest '(' (by decide) (by decide) hand.2)]
        rw [if_neg (okRest_head_ne hrest '=' (by decide) (by decide))]
        simp
      | Windows =>
        have hid : parseIdent ('w' :: 'i' :: 'n' :: 'd' :: 'o' :: 'w' :: 's' :: rest) =
            .ok ("windows", rest) :=
          @parseIdent_print "windows" rest (by decide) (okRest_head_identChar hrest)
        have hskip : skipWs ('w' :: 'i' :: 'n' :: 'd' :: 'o' :: 'w' :: 's' :: rest) =
            'w' :: 'i' :: 'n' :: 'd' :: 'o' :: 'w' :: 's' :: rest :=
          skipWs_cons_not_ws _ (by decide)
        show parsePred (fuel + 1) ('w' :: 'i' :: 'n' :: 'd' :: 'o' :: 'w' :: 's' :: rest) = _
        simp only [parsePred, hskip, hid, ok_bind]
        rw [skipWs_okRest hrest]
        rw [if_neg (fun hand => okRest_head_ne hrest '(' (by decide) (by decide) hand.2)]
        rw [if_neg (okRest_head_ne hrest '=' (by decide) (by decide))]
        simp
      | Not p =>
        have hwfp : wfPred p = true := by simpa [wfPred] using hwf
        simp only [pBound] at hb
        rw [print_not_toList]
        have hid : parseIdent ('n' :: 'o' :: 't' :: '(' :: ((PlatformPredicate.print p).toList ++ (')' :: rest))) =
            .ok ("not", '(' :: ((PlatformPredicate.print p).toList ++ (')' :: rest))) :=
          @parseIdent_print "not" ('(' :: ((PlatformPredicate.print p).toList ++ (')' :: rest)))
            (by decide) (by intro d hd; simp at hd; rw [← hd]; decide)
        have hskip : skipWs ('n' :: 'o' :: 't' :: '(' :: ((PlatformPredicate.print p).toList ++ (')' :: rest))) =
            'n' :: 'o' :: 't' :: '(' :: ((PlatformPredicate.print p).toList ++ (')' :: rest)) :=
          skipWs_cons_not_ws _ (by decide)
        simp only [parsePred, hskip, hid, ok_bind]
        have hskip2 : skipWs ('(' :: ((PlatformPredicate.print p).toList ++ (')' :: rest))) =
            '(' :: ((PlatformPredicate.print p).toList ++ (')' :: rest)) :=
          skipWs_cons_not_ws _ (by decide)
        rw [hskip2]
        rw [if_pos trivial]
        simp only [List.tail_cons]
        rw [ihP p (')' :: rest) hwfp rfl (by omega)]
        simp [ok_bind, expectClose_paren]
      | Any ps =>
        have hwfl : wfList ps = true := by simpa [wfPred] using hwf
        simp only [pBound] at hb
        rw [print_any_toList]
        have hid : parseIdent ('a' :: 'n' :: 'y' :: '(' :: ((printJoin ps).toList ++ (')' :: rest))) =
            .ok ("any", '(' :: ((printJoin ps).toList ++ (')' :: rest))) :=
          @parseIdent_print "any" ('(' :: ((printJoin ps).toList ++ (')' :: rest)))
            (by decide) (by intro d hd; simp at hd; rw [← hd]; decide)
        have hskip : skipWs ('a' :: 'n' :: 'y' :: '(' :: ((printJoin ps).toList ++ (')' :: rest))) =
            'a' :: 'n' :: 'y' :: '(' :: ((printJoin ps).toList ++ (')' :: rest)) :=
          skipWs_cons_not_ws _ (by decide)
        simp only [parsePred, hskip, hid, ok_bind]
        have hskip2 : skipWs ('(' :: ((printJoin ps).toList ++ (')' :: rest))) =
            '(' :: ((printJoin ps).toList ++ (')' :: rest)) :=
          skipWs_cons_not_ws _ (by decide)
        rw [hskip2]
        have hcondp : ('(' :: ((printJoin ps).toList ++ (')' :: rest))).head? = some '(' := rfl
        rw [if_pos (And.intro (Or.inl trivial) hcondp)]
        rw [if_neg (by decide)]
        simp only [List.tail_cons]
        rw [ihL ps rest hwfl (by omega)]
        simp [ok_bind, expectClose_paren]
      | All ps =>
        have hwfl : wfList ps = true := by simpa [wfPred] using hwf
        simp only [pBound] at hb
        rw [print_all_toList]
        have hid : parseIdent ('a' :: 'l' :: 'l' :: '(' :: ((printJoin ps).toList ++ (')' :: rest))) =
            .ok ("all", '(' :: ((printJoin ps).toList ++ (')' :: rest))) :=
          @parseIdent_print "all" ('(' :: ((printJoin ps).toList ++ (')' :: rest)))
            (by decide) (by intro d hd; simp at hd; rw [← hd]; decide)
        have hskip : skipWs ('a' :: 'l' :: 'l' :: '(' :: ((printJoin ps).toList ++ (')' :: rest))) =
            'a' :: 'l' :: 'l' :: '(' :: ((printJoin ps).toList ++ (')' :: rest)) :=
          skipWs_cons_not_ws _ (by decide)
        simp only [parsePred, hskip, hid, ok_bind]
        have hskip2 : skipWs ('(' :: ((printJoin ps).toList ++ (')' :: rest))) =
            '(' :: ((printJoin ps).toList ++ (')' :: rest)) :=
          skipWs_cons_not_ws _ (by decide)
        rw [hskip2]
        have hcondp : ('(' :: ((printJoin ps).toList ++ (')' :: rest))).head? = some '(' := rfl
        rw [if_pos (And.intro (Or.inr (Or.inl trivial)) hcondp)]
        rw [if_neg (show ¬("all" = "not") by decide)]
        simp only [List.tail_cons]
        rw [ihL ps rest hwfl (by omega)]
        simp only [ok_bind, expectClose_paren]
        rw [if_neg (show ¬("all" = "any") by decide)]
    · intro ps rest hwf hb
      cases ps with
      | nil =>
        show parseList (fuel + 1) (')' :: rest) = .ok ([], ')' :: rest)
        simp only [parseList]
        rw [skipWs_cons_not_ws _ (by decide)]
        have hcondn : (')' :: rest).head? = some ')' := rfl
        rw [if_pos (Or.inr hcondn)]
      | cons p ps =>
        have hwfp : wfPred p = true := by
          simp only [wfList, Bool.and_eq_true] at hwf; exact hwf.1
        have hwfl : wfList ps = true := by
          simp only [wfList, Bool.and_eq_true] at hwf; exact hwf.2
        simp only [lBound] at hb
        have hpP := pBound_pos p
        have hpT := tBound_pos ps
        rw [printJoin_cons_toList]
        obtain ⟨c, cs, hpc, hcid⟩ := print_head p hwfp
        have hskip : skipWs ((PlatformPredicate.print p).toList ++ ((printJoinTail ps).toList ++ (')' :: rest))) =
            (PlatformPredicate.print p).toList ++ ((printJoinTail ps).toList ++ (')' :: rest)) := by
          rw [hpc, List.cons_append]
          exact skipWs_cons_not_ws _ (identStart_not_ws hcid)
        simp only [parseList, hskip]
        rw [if_neg ?hcond]
        case hcond =>
          rintro (h1 | h1)
          · rw [hpc, List.cons_append] at h1; exact List.noConfusion h1
          · rw [hpc, List.cons_append] at h1
            simp only [List.head?_cons, Option.some.injEq] at h1
            exact identStart_ne_rparen hcid h1
        rw [ihP p ((printJoinTail ps).toList ++ (')' :: rest)) hwfp
          (okRest_printJoinTail ps rest) (by omega), ok_bind]
        rw [ihT ps rest hwfl (by omega), ok_bind]
    · intro ps rest hwf hb
      cases ps with
      | nil =>
        show parseListTail (fuel + 1) (')' :: rest) = .ok ([], ')' :: rest)
        simp only [parseListTail]
        rw [skipWs_cons_not_ws _ (by decide)]
        rw [if_neg (by simp)]
      | cons p ps =>
        have hwfp : wfPred p = true := by
          simp only [wfList, Bool.and_eq_true] at hwf; exact hwf.1
        have hwfl : wfList ps = true := by
          simp only [wfList, Bool.and_eq_true] at hwf; exact hwf.2
        simp only [tBound] at hb
        have hpP := pBound_pos p
        have hpT := tBound_pos ps
        rw [printJoinTail_cons_toList]
        simp only [parseListTail]
        rw [skipWs_cons_not_ws _ (by decide)]
        have hcondc : (',' :: ' ' :: ((PlatformPredicate.print p).toList ++
            ((printJoinTail ps).toList ++ (')' :: rest)))).head? = some ',' := rfl
        rw [if_pos hcondc]
        simp only [List.tail_cons]
        rw [parsePred_ws_cons fuel _ (by decide)]
        rw [ihP p ((printJoinTail ps).toList ++ (')' :: rest)) hwfp
          (okRest_printJoinTail ps rest) (by omega), ok_bind]
        rw [ihT ps rest hwfl (by omega), ok_bind]

/-! ## The parser only produces well-formed predicates -/

theorem parse_wf : ∀ fuel : Nat,
    (∀ input p rest, parsePred fuel input = .ok (p, rest) → wfPred p = true) ∧
    (∀ input ps rest, parseList fuel input = .ok (ps, rest) → wfList ps = true) ∧
    (∀ input ps rest, parseListTail fuel input = .ok (ps, rest) → wfList ps = true) := by
  intro fuel
  induction fuel with
  | zero =>
    refine ⟨?_, ?_, ?_⟩ <;> intro input x rest h <;>
      exact Except.noConfusion h
  | succ fuel ih =>
    obtain ⟨ihP, ihL, ihT⟩ := ih
    refine ⟨?_, ?_, ?_⟩
    · intro input p rest h
      simp only [parsePred] at h
      cases hid : parseIdent (skipWs input) with
      | error e => rw [hid, error_bind] at h; exact Except.noConfusion h
      | ok idr =>
        obtain ⟨id, restId⟩ := idr
        have hval := parseIdent_valid hid
        simp only [hid, ok_bind] at h
        by_cases hop : (id = "any" ∨ id = "all" ∨ id = "not") ∧ (skipWs restId).head? = some '('
        · rw [if_pos hop] at h
          by_cases hnot : id = "not"
          · rw [if_pos hnot] at h
            cases hp : parsePred fuel (skipWs restId).tail with
            | error e => rw [hp, error_bind] at h; exact Except.noConfusion h
            | ok pr =>
              obtain ⟨p', rest2⟩ := pr
              rw [hp, ok_bind] at h
              cases hc : expectClose rest2 with
              | error e => rw [hc, error_bind] at h; exact Except.noConfusion h
              | ok rest3 =>
                rw [hc, ok_bind] at h
                simp only [Except.ok.injEq, Prod.mk.injEq] at h
                obtain ⟨h1, h2⟩ := h
                rw [← h1]
                simp only [wfPred]
                exact ihP _ _ _ hp
          · rw [if_neg hnot] at h
            cases hp : parseList fuel (skipWs restId).tail with
            | error e => rw [hp, error_bind] at h; exact Except.noConfusion h
            | ok pr =>
              obtain ⟨ps', rest2⟩ := pr
              rw [hp, ok_bind] at h
              cases hc : expectClose rest2 with
              | error e => rw [hc, error_bind] at h; exact Except.noConfusion h
              | ok rest3 =>
                rw [hc, ok_bind] at h
                simp only [Except.ok.injEq, Prod.mk.injEq] at h
                obtain ⟨h1, h2⟩ := h
                rw [← h1]
                by_cases hany : id = "any"
                · rw [if_pos hany]
                  simp only [wfPred]
                  exact ihL _ _ _ hp
                · rw [if_neg hany]
                  simp only [wfPred]
                  exact ihL _ _ _ hp
        · rw [if_neg hop] at h
          by_cases heq : (skipWs restId).head? = some '='
          · rw [if_pos heq] at h
            cases hq : parseQuoted (skipWs (skipWs restId).tail) with
            | error e => rw [hq, error_bind] at h; exact Except.noConfusion h
            | ok vr =>
              obtain ⟨v, rest2⟩ := vr
              rw [hq, ok_bind] at h
              simp only [Except.ok.injEq, Prod.mk.injEq] at h
              obtain ⟨h1, h2⟩ := h
              rw [← h1]
              simp only [wfPred, Bool.and_eq_true]
              exact ⟨hval, parseQuoted_noquote hq⟩
          · rw [if_neg heq] at h
            simp only [Except.ok.injEq, Prod.mk.injEq] at h
            obtain ⟨h1, h2⟩ := h
            rw [← h1]
            by_cases hu : id = "unix"
            · rw [if_pos hu]; rfl
            · rw [if_neg hu]
              by_cases hw : id = "windows"
              · rw [if_pos hw]; rfl
              · rw [if_neg hw]
                simp [wfPred, hval, hu, hw]
    · intro input ps rest h
      simp only [parseList] at h
      by_cases hcond : skipWs input = [] ∨ (skipWs input).head? = some ')'
      · rw [if_pos hcond] at h
        simp only [Except.ok.injEq, Prod.mk.injEq] at h
        obtain ⟨h1, h2⟩ := h
        rw [← h1]; rfl
      · rw [if_neg hcond] at h
        cases hp : parsePred fuel (skipWs input) with
        | error e => rw [hp, error_bind] at h; exact Except.noConfusion h
        | ok pr =>
          obtain ⟨p', rest2⟩ := pr
          rw [hp, ok_bind] at h
          cases ht : parseListTail fuel rest2 with
          | error e => rw [ht, error_bind] at h; exact Except.noConfusion h
          | ok tr =>
            obtain ⟨ps', rest3⟩ := tr
            rw [ht, ok_bind] at h
            simp only [Except.ok.injEq, Prod.mk.injEq] at h
            obtain ⟨h1, h2⟩ := h
            rw [← h1]
            simp only [wfList, Bool.and_eq_true]
            exact ⟨ihP _ _ _ hp, ihT _ _ _ ht⟩
    · intro input ps rest h
      simp only [parseListTail] at h
      by_cases hcond : (skipWs input).head? = some ','
      · rw [if_pos hcond] at h
        cases hp : parsePred fuel (skipWs input).tail with
        | error e => rw [hp, error_bind] at h; exact Except.noConfusion h
        | ok pr =>
          obtain ⟨p', rest2⟩ := pr
          rw [hp, ok_bind] at h
          cases ht : parseListTail fuel rest2 with
          | error e => rw [ht, error_bind] at h; exact Except.noConfusion h
          | ok tr =>
            obtain ⟨ps', rest3⟩ := tr
            rw [ht, ok_bind] at h
            simp only [Except.ok.injEq, Prod.mk.injEq] at h
            obtain ⟨h1, h2⟩ := h
            rw [← h1]
            simp only [wfList, Bool.and_eq_true]
            exact ⟨ihP _ _ _ hp, ihT _ _ _ ht⟩
      · rw [if_neg hcond] at h
        simp only [Except.ok.injEq, Prod.mk.injEq] at h
        obtain ⟨h1, h2⟩ := h
        rw [← h1]; rfl

/-! ## Round-trip assembly -/

theorem cfg_wrap_toList (s : String) :
    ("cfg(" ++ s ++ ")").toList = 'c' :: 'f' :: 'g' :: '(' :: (s.toList ++ [')']) := by
  simp only [toList_append]
  rfl

theorem cfgParse_wf {s : String} {rest : String} {p : PlatformPredicate}
    (h : cfgParse s = .ok (rest, p)) : wfPred p = true := by
  unfold cfgParse at h
  cases ho : expectCfgOpen s.toList with
  | error e => rw [ho, error_bind] at h; exact Except.noConfusion h
  | ok body =>
    rw [ho, ok_bind] at h
    cases hp : parsePred (s.toList.length + 1) body with
    | error e => rw [hp, error_bind] at h; exact Except.noConfusion h
    | ok pr =>
      obtain ⟨p', rest'⟩ := pr
      simp only [hp, ok_bind] at h
      cases hc : expectClose rest' with
      | error e => rw [hc, error_bind] at h; exact Except.noConfusion h
      | ok rest2 =>
        rw [hc, ok_bind] at h
        simp only [Except.ok.injEq, Prod.mk.injEq] at h
        obtain ⟨h1, h2⟩ := h
        rw [← h2]
        exact (parse_wf _).1 _ _ _ hp

theorem parse_wf_top {e : PlatformExpr} {p : PlatformPredicate}
    (h : PlatformPredicate.parse e = .ok p) : wfPred p = true := by
  unfold PlatformPredicate.parse at h
  cases hc : cfgParse e.expr with
  | error err =>
    rw [hc] at h
    cases err <;> exact Except.noConfusion h
  | ok rp =>
    obtain ⟨rest, pred⟩ := rp
    rw [hc] at h
    by_cases hr : rest = ""
    · simp only [hr, if_pos] at h
      simp only [Except.ok.injEq] at h
      rw [← h]
      exact cfgParse_wf (by rw [hc, hr])
    · simp only [if_neg hr] at h
      exact Except.noConfusion h

theorem cfgParse_print {p : PlatformPredicate} (hwf : wfPred p = true) :
    cfgParse ("cfg(" ++ PlatformPredicate.print p ++ ")") = .ok ("", p) := by
  unfold cfgParse
  rw [cfg_wrap_toList]
  have hopen : expectCfgOpen
      ('c' :: 'f' :: 'g' :: '(' :: ((PlatformPredicate.print p).toList ++ [')'])) =
      .ok ((PlatformPredicate.print p).toList ++ [')']) := rfl
  rw [hopen, ok_bind]
  have hb : pBound p ≤
      ('c' :: 'f' :: 'g' :: '(' :: ((PlatformPredicate.print p).toList ++ [')'])).length + 1 := by
    have := pBound_le p
    simp only [List.length_cons, List.length_append, List.length_singleton]
    omega
  have hparse := (print_parse _).1 p [')'] hwf (by decide) hb
  rw [hparse, ok_bind]
  rfl

theorem parse_print_parse {e : PlatformExpr} {p : PlatformPredicate}
    (h : PlatformPredicate.parse e = .ok p) :
    PlatformPredicate.parse ⟨"cfg(" ++ PlatformPredicate.print p ++ ")"⟩ = .ok p := by
  have hwf := parse_wf_top h
  unfold PlatformPredicate.parse
  rw [show (PlatformExpr.mk ("cfg(" ++ PlatformPredicate.print p ++ ")")).expr =
      "cfg(" ++ PlatformPredicate.print p ++ ")" from rfl]
  rw [cfgParse_print hwf]
  rfl

/-! ## Facts about `PlatformConfig` lookups -/

theorem get_none_of_contains_key_false {c : PlatformConfig} {k : String}
    (h : c.contains_key k = false) : c.get k = none := by
  unfold PlatformConfig.contains_key at h
  unfold PlatformConfig.get
  cases hf : c.attrs.find? (fun kv => kv.1 == k) with
  | none => rfl
  | some kv => rw [hf] at h; exact Bool.noConfusion h

/-! ## Claim theorems -/

/-- C1: for every key `k`, value `v` and attribute config `c`, if `k` is
absent from `c` then `Value{k,v}.eval(c)` is true (absence = wildcard), and
if `k` is present with value-set `vs` then `Value{k,v}.eval(c)` is true
exactly when `v` is a member of `vs`. -/
theorem c1_value_semantics (k v : String) (c : PlatformConfig) :
    (c.contains_key k = false → (PlatformPredicate.Value k v).eval c = true) ∧
    (∀ vs, c.get k = some vs →
      ((PlatformPredicate.Value k v).eval c = true ↔ v ∈ vs)) := by
  constructor
  · intro h
    have hg := get_none_of_contains_key_false h
    simp [PlatformPredicate.eval, valueEval, hg]
  · intro vs hvs
    simp [PlatformPredicate.eval, valueEval, hvs, List.contains_iff_exists_mem_beq]

/-- C1 witness: concrete instances of both halves — an absent key matches
any value; a present key tests membership in the value-set. -/
theorem c1_witness :
    (PlatformPredicate.Value "target_os" "linux").eval ⟨[]⟩ = true ∧
    ((PlatformPredicate.Value "target_os" "linux").eval
        ⟨[("target_os", ["linux", "android"])]⟩ = true ↔ "linux" ∈ ["linux", "android"]) :=
  ⟨(c1_value_semantics "target_os" "linux" ⟨[]⟩).1 rfl,
   (c1_value_semantics "target_os" "linux" ⟨[("target_os", ["linux", "android"])]⟩).2
     ["linux", "android"] rfl⟩

/-- C2: `Bool{k}.eval(c)` is exactly the presence test `contains_key`, and a
key mapped to an empty value-set still counts as present. -/
theorem c2_bool_presence :
    (∀ (k : String) (c : PlatformConfig),
      (PlatformPredicate.Bool k).eval c = c.contains_key k) ∧
    (∀ (k : String) (rest : List (String × List String)),
      (PlatformPredicate.Bool k).eval ⟨(k, []) :: rest⟩ = true) := by
  constructor
  · intro k c
    rfl
  · intro k rest
    simp [PlatformPredicate.eval, boolEval, PlatformConfig.contains_key, List.find?]

/-- C3: `Any([])` evaluates to false and `All([])` to true on every config;
`Any(l)` is true iff some child is true, `All(l)` is true iff every child is
true. -/
theorem c3_any_all_semantics (c : PlatformConfig) (l : List PlatformPredicate) :
    (PlatformPredicate.Any []).eval c = false ∧
    (PlatformPredicate.All []).eval c = true ∧
    ((PlatformPredicate.Any l).eval c = true ↔ ∃ p ∈ l, p.eval c = true) ∧
    ((PlatformPredicate.All l).eval c = true ↔ ∀ p ∈ l, p.eval c = true) := by
  refine ⟨rfl, rfl, ?_, ?_⟩
  · simp [PlatformPredicate.eval, evalAny_eq_any, List.any_eq_true]
  · simp [PlatformPredicate.eval, evalAll_eq_all, List.all_eq_true]

/-- C4: the `Unix` and `Windows` sugar leaves evaluate as the disjunction of
the bare `Bool` flag and the `target_family` `Value` test. -/
theorem c4_unix_windows_sugar (c : PlatformConfig) :
    PlatformPredicate.Unix.eval c =
      ((PlatformPredicate.Bool "unix").eval c ||
        (PlatformPredicate.Value "target_family" "unix").eval c) ∧
    PlatformPredicate.Windows.eval c =
      ((PlatformPredicate.Bool "windows").eval c ||
        (PlatformPredicate.Value "target_family" "windows").eval c) :=
  ⟨rfl, rfl⟩

/-- C5 counterexample: the claim says `cfg(not(windows))` evaluates to true
on the empty config; in fact the parsed predicate evaluates to false there,
because `Windows.eval({})` is true (the absent `target_family` key is a
wildcard for the `Value` disjunct). -/
theorem c5_counterexample :
    PlatformPredicate.parse ⟨"cfg(not(windows))"⟩ = .ok (.Not .Windows) ∧
    ¬((PlatformPredicate.Not .Windows).eval ⟨[]⟩ = true) :=
  ⟨rfl, by decide⟩

/-- C5 (amended): `cfg(not(windows))` parses to `Not(Windows)`, and on the
empty config `Windows` evaluates to true (wildcard on `target_family`), so
the whole expression evaluates to false. -/
theorem c5_amended_not_windows_empty :
    PlatformPredicate.parse ⟨"cfg(not(windows))"⟩ = .ok (.Not .Windows) ∧
    PlatformPredicate.Windows.eval ⟨[]⟩ = true ∧
    (PlatformPredicate.Not .Windows).eval ⟨[]⟩ = false :=
  ⟨rfl, rfl, rfl⟩

/-- The table of scenario 6: a `DEFAULT` platform with the empty config and
a `win64` platform whose `target_family` is `{"windows"}`. -/
def c6Table : Config :=
  ⟨[(⟨"DEFAULT"⟩, ⟨[]⟩), (⟨"win64"⟩, ⟨[("target_family", ["windows"])]⟩)]⟩

/-- C6 counterexample: the claim says lookup returns exactly `["win64"]`;
in fact the `DEFAULT` platform's empty config also satisfies `cfg(windows)`
(absent `target_family` is a wildcard), so lookup returns both names. -/
theorem c6_counterexample :
    platform_names_for_expr c6Table ⟨"cfg(windows)"⟩ =
      .ok [⟨"DEFAULT"⟩, ⟨"win64"⟩] ∧
    ¬(platform_names_for_expr c6Table ⟨"cfg(windows)"⟩ = .ok [⟨"win64"⟩]) := by
  refine ⟨by rfl, ?_⟩
  intro h
  rw [show platform_names_for_expr c6Table ⟨"cfg(windows)"⟩ =
      .ok [⟨"DEFAULT"⟩, ⟨"win64"⟩] from rfl] at h
  simp at h

/-- C6 (amended): on scenario 6's table, `cfg(windows)` lookup returns both
`DEFAULT` and `win64`, in table order. -/
theorem c6_amended_lookup_both :
    platform_names_for_expr c6Table ⟨"cfg(windows)"⟩ =
      .ok [PlatformName.mk "DEFAULT", PlatformName.mk "win64"] := rfl

/-- C7: lookup parses the expression once; a parse error is propagated as
the same error and the table is irrelevant; on parse success the result is
`ok`, containing exactly the names whose config satisfies the predicate. -/
theorem c7_lookup_contract (config : Config) (expr : PlatformExpr) :
    (∀ e, PlatformPredicate.parse expr = .error e →
      platform_names_for_expr config expr = .error e) ∧
    (∀ pred, PlatformPredicate.parse expr = .ok pred →
      ∃ names, platform_names_for_expr config expr = .ok names ∧
        ∀ n, n ∈ names ↔ ∃ pc, (n, pc) ∈ config.platform ∧ pred.eval pc = true) := by
  constructor
  · intro e he
    unfold platform_names_for_expr
    rw [he]
  · intro pred hp
    unfold platform_names_for_expr
    rw [hp]
    refine ⟨_, rfl, ?_⟩
    intro n
    constructor
    · intro hn
      simp only [List.mem_map] at hn
      obtain ⟨nc, hmem, heq⟩ := hn
      rw [List.mem_filter] at hmem
      exact ⟨nc.2, by rw [← heq]; exact (Prod.mk.eta ▸ hmem.1), hmem.2⟩
    · rintro ⟨pc, hmem, heval⟩
      simp only [List.mem_map]
      exact ⟨(n, pc), List.mem_filter.mpr ⟨hmem, heval⟩, rfl⟩

/-- C7 witness: a parse error (`Incomplete`) propagates unchanged through
lookup, and a successful parse filters a concrete table. -/
theorem c7_witness :
    platform_names_for_expr (Config.mk [(⟨"p1"⟩, ⟨[("unix", [])]⟩)]) ⟨"cfg(unix"⟩ =
      .error .Incomplete ∧
    ∃ names, platform_names_for_expr (Config.mk [(⟨"p1"⟩, ⟨[("unix", [])]⟩)]) ⟨"cfg(unix)"⟩ =
        .ok names ∧
      ∀ n, n ∈ names ↔ ∃ pc,
        (n, pc) ∈ (Config.mk [(⟨"p1"⟩, ⟨[("unix", [])]⟩)]).platform ∧
        PlatformPredicate.Unix.eval pc = true :=
  ⟨(c7_lookup_contract (Config.mk [(⟨"p1"⟩, ⟨[("unix", [])]⟩)]) ⟨"cfg(unix"⟩).1 .Incomplete rfl,
   (c7_lookup_contract (Config.mk [(⟨"p1"⟩, ⟨[("unix", [])]⟩)]) ⟨"cfg(unix)"⟩).2 .Unix rfl⟩

/-- C8: for every parseable expression, printing the parsed AST and
re-parsing it wrapped in `cfg( )` yields an AST that evaluates to the same
boolean as the original on every attribute config. -/
theorem c8_round_trip (e : PlatformExpr) (p : PlatformPredicate)
    (h : PlatformPredicate.parse e = .ok p) :
    ∃ pred, PlatformPredicate.parse ⟨"cfg(" ++ PlatformPredicate.print p ++ ")"⟩ = .ok pred ∧
      ∀ c, pred.eval c = p.eval c :=
  ⟨p, parse_print_parse h, fun _ => rfl⟩

/-- C8 witness: round trip of `cfg(not(unix))` (whose printed form keeps the
`unix` sugar). -/
theorem c8_witness :
    ∃ pred, PlatformPredicate.parse
        ⟨"cfg(" ++ PlatformPredicate.print (.Not .Unix) ++ ")"⟩ = .ok pred ∧
      ∀ c, pred.eval c = (PlatformPredicate.Not .Unix).eval c :=
  c8_round_trip ⟨"cfg(not(unix))"⟩ (.Not .Unix) rfl

/-- C9: De Morgan consistency of the evaluator: `Not(All([a,b]))` and
`Any([Not(a),Not(b)])` evaluate identically on every config. -/
theorem c9_de_morgan (a b : PlatformPredicate) (c : PlatformConfig) :
    (PlatformPredicate.Not (.All [a, b])).eval c =
      (PlatformPredicate.Any [.Not a, .Not b]).eval c := by
  cases ha : a.eval c <;> cases hb : b.eval c <;>
    simp [PlatformPredicate.eval, evalAll, evalAny, ha, hb]

/-- C10: when `target_family` is absent from the config, both `Unix` and
`Windows` evaluate to true, whatever other keys are present, because the
`Value{target_family, ...}` disjunct hits the absence-is-wildcard rule. -/
theorem c10_absent_target_family (c : PlatformConfig)
    (h : c.contains_key "target_family" = false) :
    PlatformPredicate.Unix.eval c = true ∧ PlatformPredicate.Windows.eval c = true := by
  have hg := get_none_of_contains_key_false h
  constructor <;> simp [PlatformPredicate.eval, target_family_bool, valueEval, hg]

/-- C10 witness: the empty config has no `target_family`; both sugar leaves
evaluate to true there. -/
theorem c10_witness :
    PlatformPredicate.Unix.eval ⟨[]⟩ = true ∧ PlatformPredicate.Windows.eval ⟨[]⟩ = true :=
  c10_absent_target_family ⟨[]⟩ rfl
